import Mathlib

/-!
Verification of the Cotrending-Basis-Vector (CBV) cadence alignment and
interpolation component described by the repository's specification.

The repository itself ships only tutorial notebooks and CI configuration;
the `align` / `interpolate` routines they demonstrate live in the external
library.  Following the specification, the component is modelled here as a
pure transformation over an explicit `BasisVectorTable` record, with machine
floats replaced by exact rationals and the not-a-number sentinel made an
explicit constructor.
-/

namespace CBV

/-- Modelled from the spec: a basis-vector sample value.  The spec's
floating-point values are modelled as exact rationals; the not-a-number
sentinel used by `align` for unmatched cadences is an explicit
constructor. -/
inductive Val where
  | nan : Val
  | num (q : ℚ) : Val
deriving DecidableEq, Repr

/-- Modelled from the spec: one row of a `BasisVectorTable`: a cadence
number, a timestamp, the basis-vector amplitudes and a gap flag. -/
structure Row where
  cadence_number : Int
  time : ℚ
  values : List Val
  gap_flag : Bool
deriving DecidableEq, Repr, Inhabited

/-- Modelled from the spec: a `BasisVectorTable` is an ordered sequence of
rows, one per cadence. -/
abbrev BasisVectorTable := List Row

/-- Modelled from the spec: one `(cadence_number, time)` pair of a
`TargetCadenceGrid`. -/
structure GridEntry where
  cadence_number : Int
  time : ℚ
deriving DecidableEq, Repr, Inhabited

/-- Modelled from the spec: a `TargetCadenceGrid` is an ordered sequence of
`(cadence_number, time)` pairs of the light curve being corrected. -/
abbrev TargetCadenceGrid := List GridEntry

/-- Modelled from the spec: the error taxonomy of §7 (`EmptyGridError`,
`InsufficientDataError`, `UnsortedTableError`). -/
inductive CbvError where
  | emptyGrid : CbvError
  | insufficientData : CbvError
  | unsortedTable : CbvError
deriving DecidableEq, Repr

/-- Modelled from the spec: the basis-vector dimensionality of a table (the
length of the `values` sequence of its rows). -/
def basisDim (table : BasisVectorTable) : Nat :=
  (table.headD default).values.length

/-- Modelled from the spec: a row of not-a-number sentinels of the given
dimensionality, as emitted by `align` for an unmatched cadence. -/
def nanValues (dim : Nat) : List Val :=
  List.replicate dim Val.nan

/-- Modelled from the spec: the output row of `align` for one target-grid
entry: look the cadence number up in the table; copy `values` and `gap_flag`
when found, emit NaN sentinels and `gap_flag = true` otherwise.  The
identifier columns come from the target entry. -/
def alignRow (table : BasisVectorTable) (e : GridEntry) : Row :=
  match table.find? (fun r => r.cadence_number == e.cadence_number) with
  | some r =>
      { cadence_number := e.cadence_number, time := e.time,
        values := r.values, gap_flag := r.gap_flag }
  | none =>
      { cadence_number := e.cadence_number, time := e.time,
        values := nanValues (basisDim table), gap_flag := true }

/-- Modelled from the spec: `align(table, target_grid)`: exact
cadence-number matching, one output row per target-grid entry, in
target-grid order; an empty grid is `EmptyGridError`. -/
def align (table : BasisVectorTable) (grid : TargetCadenceGrid) :
    Except CbvError BasisVectorTable :=
  if grid.isEmpty then .error .emptyGrid
  else .ok (grid.map (alignRow table))

/-- Sign of a rational, as used by the PCHIP derivative rules. -/
def sgn (q : ℚ) : Int :=
  if q < 0 then -1 else if q = 0 then 0 else 1

/-- Modelled from the spec: the PCHIP one-sided three-point derivative
estimate at a boundary point, with the standard shape-preserving
adjustments (zeroed when its sign disagrees with the first interval's
slope, clamped to three times that slope at a local extremum). -/
def edgeDeriv (h0 h1 d0 d1 : ℚ) : ℚ :=
  if sgn (((2 * h0 + h1) * d0 - h0 * d1) / (h0 + h1)) ≠ sgn d0 then 0
  else if sgn d0 ≠ sgn d1 ∧
      |((2 * h0 + h1) * d0 - h0 * d1) / (h0 + h1)| > 3 * |d0| then 3 * d0
  else ((2 * h0 + h1) * d0 - h0 * d1) / (h0 + h1)

/-- Modelled from the spec: the PCHIP derivative estimate at an interior
point: zero at a local extremum or flat interval, otherwise the weighted
harmonic mean of the two adjacent interval slopes. -/
def interiorDeriv (hprev hcur dprev dcur : ℚ) : ℚ :=
  if sgn dprev ≠ sgn dcur ∨ dprev = 0 ∨ dcur = 0 then 0
  else ((2 * hcur + hprev) + (hcur + 2 * hprev)) /
    ((2 * hcur + hprev) / dprev + (hcur + 2 * hprev) / dcur)

/-- Width of the `k`-th interval of a breakpoint sequence. -/
def hgap (x : Nat → ℚ) (k : Nat) : ℚ := x (k + 1) - x k

/-- Secant slope of the data over the `k`-th interval. -/
def slope (x y : Nat → ℚ) (k : Nat) : ℚ := (y (k + 1) - y k) / (x (k + 1) - x k)

/-- Modelled from the spec: the PCHIP endpoint derivative at breakpoint `k`
of `n` data points `(x i, y i)`: secant slope for two points, one-sided
boundary estimates at the ends, weighted harmonic mean in the interior. -/
def pchipDeriv (n : Nat) (x y : Nat → ℚ) (k : Nat) : ℚ :=
  if n = 2 then slope x y 0
  else if k = 0 then edgeDeriv (hgap x 0) (hgap x 1) (slope x y 0) (slope x y 1)
  else if k = n - 1 then
    edgeDeriv (hgap x (n - 2)) (hgap x (n - 3)) (slope x y (n - 2)) (slope x y (n - 3))
  else interiorDeriv (hgap x (k - 1)) (hgap x k) (slope x y (k - 1)) (slope x y k)

/-- Cubic Hermite segment through `(x0, y0)` and `(x1, y1)` with endpoint
derivatives `m0`, `m1`, evaluated at `t`. -/
def hermiteEval (x0 x1 y0 y1 m0 m1 t : ℚ) : ℚ :=
  y0 * (2 * ((t - x0) / (x1 - x0)) ^ 3 - 3 * ((t - x0) / (x1 - x0)) ^ 2 + 1)
    + (x1 - x0) * m0 * (((t - x0) / (x1 - x0)) ^ 3
        - 2 * ((t - x0) / (x1 - x0)) ^ 2 + (t - x0) / (x1 - x0))
    + y1 * (3 * ((t - x0) / (x1 - x0)) ^ 2 - 2 * ((t - x0) / (x1 - x0)) ^ 3)
    + (x1 - x0) * m1 * (((t - x0) / (x1 - x0)) ^ 3 - ((t - x0) / (x1 - x0)) ^ 2)

/-- Largest index `j ≤ bound` with `j = 0` or `x j ≤ t`. -/
def segIdxAux (x : Nat → ℚ) (t : ℚ) : Nat → Nat
  | 0 => 0
  | j + 1 => if x (j + 1) ≤ t then j + 1 else segIdxAux x t j

/-- The polynomial segment of the piecewise interpolant used at target time
`t`: the largest `j ≤ n - 2` with `x j ≤ t` (segment `0` below the domain,
segment `n - 2` above it). -/
def segIdx (n : Nat) (x : Nat → ℚ) (t : ℚ) : Nat := segIdxAux x t (n - 2)

/-- Modelled from the spec: evaluation of the PCHIP interpolant through the
`n` points `(x i, y i)` at target time `t`: locate the segment and evaluate
its cubic Hermite polynomial (also used beyond the domain when
extrapolating, per the boundary-segment rule). -/
def pchipEvalAt (n : Nat) (x y : Nat → ℚ) (t : ℚ) : ℚ :=
  hermiteEval (x (segIdx n x t)) (x (segIdx n x t + 1)) (y (segIdx n x t))
    (y (segIdx n x t + 1)) (pchipDeriv n x y (segIdx n x t))
    (pchipDeriv n x y (segIdx n x t + 1)) t

/-- Numeric reading of a sample value; the NaN sentinel never occurs in the
tables the spec feeds to `interpolate` and is read as zero. -/
def valToRat : Val → ℚ
  | .nan => 0
  | .num q => q

/-- The time of row `i` of a table. -/
def tableTimes (table : BasisVectorTable) (i : Nat) : ℚ :=
  (table.getD i default).time

/-- The value of basis-vector dimension `d` at row `i` of a table. -/
def tableVals (table : BasisVectorTable) (d : Nat) (i : Nat) : ℚ :=
  valToRat ((table.getD i default).values.getD d Val.nan)

/-- Modelled from the spec: the `UnsortedTableError` precondition check:
the table's times are strictly increasing. -/
def timesSortedB (table : BasisVectorTable) : Bool :=
  (List.range (table.length - 1)).all
    (fun i => tableTimes table i < tableTimes table (i + 1))

/-- Modelled from the spec: the output row of `interpolate` for one
target-grid entry.  In-range times get the interpolant's values and
`gap_flag = false`; out-of-range times get the extrapolated values with
`gap_flag = true` when `extrapolate` is set, and zeros with
`gap_flag = true` otherwise.  Identifier columns come from the target
entry. -/
def interpRow (table : BasisVectorTable) (extrapolate : Bool) (e : GridEntry) : Row :=
  if e.time < tableTimes table 0 ∨ tableTimes table (table.length - 1) < e.time then
    if extrapolate then
      { cadence_number := e.cadence_number, time := e.time,
        values := (List.range (basisDim table)).map (fun d =>
          Val.num (pchipEvalAt table.length (tableTimes table) (tableVals table d) e.time)),
        gap_flag := true }
    else
      { cadence_number := e.cadence_number, time := e.time,
        values := List.replicate (basisDim table) (Val.num 0), gap_flag := true }
  else
    { cadence_number := e.cadence_number, time := e.time,
      values := (List.range (basisDim table)).map (fun d =>
        Val.num (pchipEvalAt table.length (tableTimes table) (tableVals table d) e.time)),
      gap_flag := false }

/-- Modelled from the spec: `interpolate(table, target_grid, extrapolate)`:
the interpolant is fit from the table first (fewer than two points is
`InsufficientDataError`, non-increasing times is `UnsortedTableError`),
then an empty grid is `EmptyGridError`, and otherwise one output row is
produced per target-grid entry, in target-grid order. -/
def interpolate (table : BasisVectorTable) (grid : TargetCadenceGrid)
    (extrapolate : Bool) : Except CbvError BasisVectorTable :=
  if table.length < 2 then .error .insufficientData
  else if ¬ timesSortedB table then .error .unsortedTable
  else if grid.isEmpty then .error .emptyGrid
  else .ok (grid.map (interpRow table extrapolate))

/-! ### Concrete fixtures used by witnesses and counterexamples -/

/-- A three-cadence table with one basis vector, as in the spec's concrete
scenario (§8). -/
def wTable : BasisVectorTable :=
  [⟨10, 0, [Val.num 1], false⟩, ⟨20, 1, [Val.num 2], false⟩,
   ⟨30, 2, [Val.num 3], false⟩]

/-- The spec's concrete target grid with one unmatched cadence. -/
def wGrid : TargetCadenceGrid := [⟨10, 0⟩, ⟨25, 3 / 2⟩, ⟨30, 2⟩]

/-- A one-row table (insufficient data for interpolation). -/
def wTable1 : BasisVectorTable := [⟨10, 0, [Val.num 1], false⟩]

/-- A table whose single row was itself gap-filled (`gap_flag = true`). -/
def gapTable : BasisVectorTable := [⟨1, 0, [Val.num 1], true⟩]

/-- A grid whose one cadence number is present in `gapTable`. -/
def gapGrid : TargetCadenceGrid := [⟨1, 0⟩]

/-! ### Basic lemmas about the two operations -/

lemma getD_map_of_lt {α β : Type} (l : List α) (f : α → β) (i : Nat) (d : β)
    (d2 : α) (h : i < l.length) : (l.map f).getD i d = f (l.getD i d2) := by
  rw [List.getD_eq_getElem?_getD, List.getD_eq_getElem?_getD, List.getElem?_map,
    List.getElem?_eq_getElem h]
  simp

lemma map_eq_self_of {α : Type} (l : List α) (f : α → α)
    (h : ∀ x ∈ l, f x = x) : l.map f = l := by
  induction l with
  | nil => rfl
  | cons a t ih =>
      simp only [List.map_cons, List.cons.injEq]
      exact ⟨h a (List.mem_cons_self a t), ih fun x hx => h x (List.mem_cons_of_mem a hx)⟩

lemma align_ok (table : BasisVectorTable) (grid : TargetCadenceGrid)
    (h : grid ≠ []) : align table grid = .ok (grid.map (alignRow table)) := by
  simp [align, h]

lemma interpolate_ok (table : BasisVectorTable) (grid : TargetCadenceGrid)
    (ex : Bool) (h2 : 2 ≤ table.length) (hs : timesSortedB table = true)
    (hne : grid ≠ []) :
    interpolate table grid ex = .ok (grid.map (interpRow table ex)) := by
  simp [interpolate, hs, hne, Nat.not_lt.mpr h2]

lemma align_ok_inv (table : BasisVectorTable) (grid : TargetCadenceGrid)
    (out : BasisVectorTable) (h : align table grid = .ok out) :
    out = grid.map (alignRow table) := by
  by_cases hg : grid.isEmpty
  · simp [align, hg] at h
  · simp [align, hg] at h
    exact h.symm

lemma interpolate_ok_inv (table : BasisVectorTable) (grid : TargetCadenceGrid)
    (ex : Bool) (out : BasisVectorTable)
    (h : interpolate table grid ex = .ok out) :
    out = grid.map (interpRow table ex) := by
  by_cases h2 : table.length < 2
  · simp [interpolate, h2] at h
  · by_cases hs : timesSortedB table
    · by_cases hg : grid.isEmpty
      · simp [interpolate, h2, hs, hg] at h
      · simp [interpolate, h2, hs, hg] at h
        exact h.symm
    · simp [interpolate, h2, hs] at h

lemma alignRow_cadence (table : BasisVectorTable) (e : GridEntry) :
    (alignRow table e).cadence_number = e.cadence_number := by
  unfold alignRow
  cases table.find? (fun r => r.cadence_number == e.cadence_number) <;> rfl

lemma alignRow_time (table : BasisVectorTable) (e : GridEntry) :
    (alignRow table e).time = e.time := by
  unfold alignRow
  cases table.find? (fun r => r.cadence_number == e.cadence_number) <;> rfl

lemma interpRow_cadence (table : BasisVectorTable) (ex : Bool) (e : GridEntry) :
    (interpRow table ex e).cadence_number = e.cadence_number := by
  unfold interpRow
  by_cases h : e.time < tableTimes table 0 ∨
      tableTimes table (table.length - 1) < e.time <;> cases ex <;> simp [h]

lemma interpRow_time (table : BasisVectorTable) (ex : Bool) (e : GridEntry) :
    (interpRow table ex e).time = e.time := by
  unfold interpRow
  by_cases h : e.time < tableTimes table 0 ∨
      tableTimes table (table.length - 1) < e.time <;> cases ex <;> simp [h]

lemma alignRow_of_find?_some (table : BasisVectorTable) (e : GridEntry) (r0 : Row)
    (h : table.find? (fun r => r.cadence_number == e.cadence_number) = some r0) :
    alignRow table e =
      { cadence_number := e.cadence_number, time := e.time,
        values := r0.values, gap_flag := r0.gap_flag } := by
  unfold alignRow
  rw [h]

lemma find?_cadence_eq_some (table : BasisVectorTable) (c : Int) (r0 : Row)
    (h : table.find? (fun r => r.cadence_number == c) = some r0) :
    r0 ∈ table ∧ r0.cadence_number = c := by
  refine ⟨List.mem_of_find?_eq_some h, ?_⟩
  have := List.find?_some h
  simpa using this

lemma find?_cadence_of_mem (table : BasisVectorTable) (c : Int) (r : Row)
    (hr : r ∈ table) (hc : r.cadence_number = c) :
    ∃ r0, table.find? (fun r => r.cadence_number == c) = some r0 := by
  have hsome : (table.find? (fun r => r.cadence_number == c)).isSome := by
    rw [List.find?_isSome]
    exact ⟨r, hr, by simpa using hc⟩
  exact Option.isSome_iff_exists.mp hsome

/-! ### Shape preservation of the PCHIP interpolant -/

lemma sgn_eq_zero_iff (q : ℚ) : sgn q = 0 ↔ q = 0 := by
  rcases lt_trichotomy q 0 with h | h | h
  · simp [sgn, h, h.ne]
  · simp [sgn, h]
  · simp [sgn, not_lt.mpr h.le, h.ne']

lemma sgn_eq_one_iff (q : ℚ) : sgn q = 1 ↔ 0 < q := by
  rcases lt_trichotomy q 0 with h | h | h
  · simp [sgn, h, not_lt.mpr h.le]
  · simp [sgn, h]
  · simp [sgn, not_lt.mpr h.le, h.ne', h]

lemma sgn_neg_arg (q : ℚ) : sgn (-q) = - sgn q := by
  unfold sgn
  rcases lt_trichotomy q 0 with h | h | h
  · rw [if_pos h, if_neg (show ¬ -q < 0 by linarith),
      if_neg (show ¬ -q = 0 by rw [neg_eq_zero]; exact h.ne)]
    norm_num
  · subst h
    norm_num
  · rw [if_pos (show -q < 0 by linarith), if_neg (not_lt.mpr h.le), if_neg h.ne']

lemma edgeDeriv_bound (h0 h1 d0 d1 : ℚ) (hh0 : 0 < h0) (hh1 : 0 < h1)
    (hd0 : 0 ≤ d0) (hd1 : 0 ≤ d1) :
    0 ≤ edgeDeriv h0 h1 d0 d1 ∧ edgeDeriv h0 h1 d0 d1 ≤ 3 * d0 := by
  unfold edgeDeriv
  split_ifs with hsgn hclamp
  · exact ⟨le_refl 0, by linarith⟩
  · exact ⟨by linarith, le_refl _⟩
  · push_neg at hsgn
    rcases eq_or_lt_of_le hd0 with hz | hpos
    · have hdz : ((2 * h0 + h1) * d0 - h0 * d1) / (h0 + h1) = 0 := by
        rw [← sgn_eq_zero_iff, hsgn, sgn_eq_zero_iff]
        exact hz.symm
      rw [hdz]
      exact ⟨le_refl 0, by linarith⟩
    · have hdpos : 0 < ((2 * h0 + h1) * d0 - h0 * d1) / (h0 + h1) := by
        rw [← sgn_eq_one_iff, hsgn, sgn_eq_one_iff]
        exact hpos
      refine ⟨hdpos.le, ?_⟩
      push_neg at hclamp
      by_cases hsd : sgn d0 = sgn d1
      · have hd1pos : 0 < d1 := by
          rw [← sgn_eq_one_iff, ← hsd, sgn_eq_one_iff]
          exact hpos
        rw [div_le_iff₀ (by linarith)]
        nlinarith
      · have habs := hclamp hsd
        calc ((2 * h0 + h1) * d0 - h0 * d1) / (h0 + h1)
            ≤ |((2 * h0 + h1) * d0 - h0 * d1) / (h0 + h1)| := le_abs_self _
          _ ≤ 3 * |d0| := habs
          _ = 3 * d0 := by rw [abs_of_nonneg hd0]

lemma interiorDeriv_bound (hp hc dp dc : ℚ) (hhp : 0 < hp) (hhc : 0 < hc)
    (hdp : 0 ≤ dp) (hdc : 0 ≤ dc) :
    0 ≤ interiorDeriv hp hc dp dc ∧ interiorDeriv hp hc dp dc ≤ 3 * dp ∧
      interiorDeriv hp hc dp dc ≤ 3 * dc := by
  unfold interiorDeriv
  split_ifs with hcond
  · exact ⟨le_refl 0, by linarith, by linarith⟩
  · push_neg at hcond
    have hdpz : dp ≠ 0 := hcond.2.1
    have hdcz : dc ≠ 0 := hcond.2.2
    have hdppos : 0 < dp := lt_of_le_of_ne hdp (Ne.symm hdpz)
    have hdcpos : 0 < dc := lt_of_le_of_ne hdc (Ne.symm hdcz)
    have hsum : (2 * hc + hp) / dp + (hc + 2 * hp) / dc =
        ((2 * hc + hp) * dc + dp * (hc + 2 * hp)) / (dp * dc) :=
      div_add_div _ _ hdpz hdcz
    rw [hsum, div_div_eq_mul_div]
    have hden : 0 < (2 * hc + hp) * dc + dp * (hc + 2 * hp) := by positivity
    refine ⟨by positivity, ?_, ?_⟩
    · rw [div_le_iff₀ hden]
      nlinarith [mul_pos (mul_pos hhc hdppos) hdcpos,
        mul_pos (mul_pos hhc hdppos) hdppos, mul_pos (mul_pos hhp hdppos) hdppos]
    · rw [div_le_iff₀ hden]
      nlinarith [mul_pos (mul_pos hhc hdcpos) hdcpos,
        mul_pos (mul_pos hhp hdcpos) hdcpos, mul_pos (mul_pos hhp hdppos) hdcpos]

lemma x_le_of_le (n : Nat) (x : Nat → ℚ)
    (hsort : ∀ i, i + 1 < n → x i < x (i + 1)) (i j : Nat) (hij : i ≤ j)
    (hj : j < n) : x i ≤ x j := by
  induction j with
  | zero =>
      have : i = 0 := Nat.le_zero.mp hij
      rw [this]
  | succ k ih =>
      rcases Nat.lt_or_ge i (k + 1) with h | h
      · have h1 : x i ≤ x k := ih (by omega) (by omega)
        have h2 : x k < x (k + 1) := hsort k hj
        linarith
      · have : i = k + 1 := by omega
        rw [this]

lemma hgap_pos (n : Nat) (x : Nat → ℚ)
    (hsort : ∀ i, i + 1 < n → x i < x (i + 1)) (k : Nat) (hk : k + 1 < n) :
    0 < hgap x k :=
  sub_pos.mpr (hsort k hk)

lemma slope_nonneg (n : Nat) (x y : Nat → ℚ)
    (hsort : ∀ i, i + 1 < n → x i < x (i + 1))
    (hmono : ∀ i, i + 1 < n → y i ≤ y (i + 1)) (k : Nat) (hk : k + 1 < n) :
    0 ≤ slope x y k :=
  div_nonneg (sub_nonneg.mpr (hmono k hk)) (sub_nonneg.mpr (hsort k hk).le)

lemma pchipDeriv_bound (n : Nat) (x y : Nat → ℚ) (hn : 2 ≤ n)
    (hsort : ∀ i, i + 1 < n → x i < x (i + 1))
    (hmono : ∀ i, i + 1 < n → y i ≤ y (i + 1)) (k : Nat) (hk : k < n) :
    0 ≤ pchipDeriv n x y k ∧
      (k + 1 < n → pchipDeriv n x y k ≤ 3 * slope x y k) ∧
      (1 ≤ k → pchipDeriv n x y k ≤ 3 * slope x y (k - 1)) := by
  rcases eq_or_lt_of_le hn with h2 | h3
  · have hn2 : n = 2 := h2.symm
    have hder : pchipDeriv n x y k = slope x y 0 := by
      unfold pchipDeriv
      rw [if_pos hn2]
    have hs0 : 0 ≤ slope x y 0 := slope_nonneg n x y hsort hmono 0 (by omega)
    refine ⟨by rw [hder]; exact hs0, fun hk1 => ?_, fun hk1 => ?_⟩
    · have : k = 0 := by omega
      rw [hder, this]
      linarith
    · have : k = 1 := by omega
      rw [hder, this]
      norm_num
      linarith
  · have hn3 : 3 ≤ n := h3
    have hnot2 : ¬ n = 2 := by omega
    by_cases hk0 : k = 0
    · subst hk0
      have hder : pchipDeriv n x y 0 =
          edgeDeriv (hgap x 0) (hgap x 1) (slope x y 0) (slope x y 1) := by
        unfold pchipDeriv
        rw [if_neg hnot2, if_pos rfl]
      have hb := edgeDeriv_bound (hgap x 0) (hgap x 1) (slope x y 0) (slope x y 1)
        (hgap_pos n x hsort 0 (by omega)) (hgap_pos n x hsort 1 (by omega))
        (slope_nonneg n x y hsort hmono 0 (by omega))
        (slope_nonneg n x y hsort hmono 1 (by omega))
      rw [hder]
      exact ⟨hb.1, fun _ => hb.2, fun habs => absurd habs (by omega)⟩
    · by_cases hklast : k = n - 1
      · have hder : pchipDeriv n x y k =
            edgeDeriv (hgap x (n - 2)) (hgap x (n - 3))
              (slope x y (n - 2)) (slope x y (n - 3)) := by
          unfold pchipDeriv
          rw [if_neg hnot2, if_neg hk0, if_pos hklast]
        have hb := edgeDeriv_bound (hgap x (n - 2)) (hgap x (n - 3))
          (slope x y (n - 2)) (slope x y (n - 3))
          (hgap_pos n x hsort (n - 2) (by omega)) (hgap_pos n x hsort (n - 3) (by omega))
          (slope_nonneg n x y hsort hmono (n - 2) (by omega))
          (slope_nonneg n x y hsort hmono (n - 3) (by omega))
        rw [hder]
        refine ⟨hb.1, fun hk1 => absurd hk1 (by omega), fun _ => ?_⟩
        have : k - 1 = n - 2 := by omega
        rw [this]
        exact hb.2
      · have hder : pchipDeriv n x y k =
            interiorDeriv (hgap x (k - 1)) (hgap x k)
              (slope x y (k - 1)) (slope x y k) := by
          unfold pchipDeriv
          rw [if_neg hnot2, if_neg hk0, if_neg hklast]
        have hb := interiorDeriv_bound (hgap x (k - 1)) (hgap x k)
          (slope x y (k - 1)) (slope x y k)
          (hgap_pos n x hsort (k - 1) (by omega)) (hgap_pos n x hsort k (by omega))
          (slope_nonneg n x y hsort hmono (k - 1) (by omega))
          (slope_nonneg n x y hsort hmono k (by omega))
        rw [hder]
        exact ⟨hb.1, fun _ => hb.2.2, fun _ => hb.2.1⟩

lemma cubic_bound (dly a b s : ℚ) (hdl : 0 ≤ dly) (hs0 : 0 ≤ s) (hs1 : s ≤ 1)
    (ha0 : 0 ≤ a) (hau : a ≤ 3 * dly) (hb0 : 0 ≤ b) (hbu : b ≤ 3 * dly) :
    0 ≤ dly * (3 * s ^ 2 - 2 * s ^ 3) + a * (s ^ 3 - 2 * s ^ 2 + s)
        + b * (s ^ 3 - s ^ 2) ∧
      dly * (3 * s ^ 2 - 2 * s ^ 3) + a * (s ^ 3 - 2 * s ^ 2 + s)
        + b * (s ^ 3 - s ^ 2) ≤ dly := by
  have h1s : 0 ≤ 1 - s := by linarith
  constructor
  · have key : dly * (3 * s ^ 2 - 2 * s ^ 3) + a * (s ^ 3 - 2 * s ^ 2 + s)
        + b * (s ^ 3 - s ^ 2) =
        dly * s ^ 3 + a * (s * (1 - s) ^ 2) + (3 * dly - b) * (s ^ 2 * (1 - s)) := by
      ring
    rw [key]
    have t1 : 0 ≤ dly * s ^ 3 := by positivity
    have t2 : 0 ≤ a * (s * (1 - s) ^ 2) := by positivity
    have t3 : 0 ≤ (3 * dly - b) * (s ^ 2 * (1 - s)) :=
      mul_nonneg (by linarith) (by positivity)
    linarith
  · have key : dly - (dly * (3 * s ^ 2 - 2 * s ^ 3) + a * (s ^ 3 - 2 * s ^ 2 + s)
        + b * (s ^ 3 - s ^ 2)) =
        dly * (1 - s) ^ 3 + (3 * dly - a) * (s * (1 - s) ^ 2)
          + b * (s ^ 2 * (1 - s)) := by
      ring
    have t1 : 0 ≤ dly * (1 - s) ^ 3 := by positivity
    have t2 : 0 ≤ (3 * dly - a) * (s * (1 - s) ^ 2) :=
      mul_nonneg (by linarith) (by positivity)
    have t3 : 0 ≤ b * (s ^ 2 * (1 - s)) := by positivity
    linarith [key, t1, t2, t3]

lemma hermiteEval_eq (x0 x1 y0 y1 m0 m1 t : ℚ) :
    hermiteEval x0 x1 y0 y1 m0 m1 t =
      y0 + ((y1 - y0) * (3 * ((t - x0) / (x1 - x0)) ^ 2
            - 2 * ((t - x0) / (x1 - x0)) ^ 3)
        + ((x1 - x0) * m0) * (((t - x0) / (x1 - x0)) ^ 3
            - 2 * ((t - x0) / (x1 - x0)) ^ 2 + (t - x0) / (x1 - x0))
        + ((x1 - x0) * m1) * (((t - x0) / (x1 - x0)) ^ 3
            - ((t - x0) / (x1 - x0)) ^ 2)) := by
  unfold hermiteEval
  ring

lemma hermiteEval_bound (x0 x1 y0 y1 m0 m1 t : ℚ) (hx : x0 < x1)
    (ht0 : x0 ≤ t) (ht1 : t ≤ x1) (hy : y0 ≤ y1)
    (hm0l : 0 ≤ (x1 - x0) * m0) (hm0u : (x1 - x0) * m0 ≤ 3 * (y1 - y0))
    (hm1l : 0 ≤ (x1 - x0) * m1) (hm1u : (x1 - x0) * m1 ≤ 3 * (y1 - y0)) :
    y0 ≤ hermiteEval x0 x1 y0 y1 m0 m1 t ∧
      hermiteEval x0 x1 y0 y1 m0 m1 t ≤ y1 := by
  have hh : 0 < x1 - x0 := sub_pos.mpr hx
  have heq := hermiteEval_eq x0 x1 y0 y1 m0 m1 t
  set s := (t - x0) / (x1 - x0) with hsdef
  have hs0 : 0 ≤ s := div_nonneg (by linarith) hh.le
  have hs1 : s ≤ 1 := (div_le_one hh).mpr (by linarith)
  have hcb := cubic_bound (y1 - y0) ((x1 - x0) * m0) ((x1 - x0) * m1) s
    (by linarith) hs0 hs1 hm0l hm0u hm1l hm1u
  constructor
  · rw [heq]
    linarith [hcb.1]
  · rw [heq]
    linarith [hcb.2]

lemma hermiteEval_left (x0 x1 y0 y1 m0 m1 : ℚ) :
    hermiteEval x0 x1 y0 y1 m0 m1 x0 = y0 := by
  unfold hermiteEval
  rw [sub_self, zero_div]
  ring

lemma segIdxAux_eq (x : Nat → ℚ) (t : ℚ) (k : Nat) (m : Nat) (hkm : k ≤ m)
    (hk : k = 0 ∨ x k ≤ t) (habove : ∀ j, k < j → j ≤ m → ¬ x j ≤ t) :
    segIdxAux x t m = k := by
  induction m with
  | zero =>
      have : k = 0 := Nat.le_zero.mp hkm
      rw [this]
      rfl
  | succ mm ih =>
      by_cases hx : x (mm + 1) ≤ t
      · have hkeq : k = mm + 1 := by
          by_contra hne
          exact habove (mm + 1) (by omega) (le_refl _) hx
        rw [segIdxAux, if_pos hx, hkeq]
      · have hk2 : k ≤ mm := by
          rcases hk with hk0 | hkx
          · omega
          · rcases Nat.lt_or_ge k (mm + 1) with h | h
            · omega
            · have : k = mm + 1 := by omega
              rw [this] at hkx
              exact absurd hkx hx
        rw [segIdxAux, if_neg hx]
        exact ih hk2 fun j hj hjm => habove j hj (by omega)

lemma pchipEvalAt_bound_mono (n : Nat) (x y : Nat → ℚ) (hn : 2 ≤ n)
    (hsort : ∀ i, i + 1 < n → x i < x (i + 1))
    (hmono : ∀ i, i + 1 < n → y i ≤ y (i + 1))
    (k : Nat) (hk : k + 1 < n) (t : ℚ) (ht0 : x k ≤ t) (ht1 : t ≤ x (k + 1)) :
    y k ≤ pchipEvalAt n x y t ∧ pchipEvalAt n x y t ≤ y (k + 1) := by
  by_cases hcase : t = x (k + 1) ∧ k + 2 < n
  · obtain ⟨hteq, hk2⟩ := hcase
    have hseg : segIdx n x t = k + 1 := by
      unfold segIdx
      apply segIdxAux_eq x t (k + 1) (n - 2) (by omega)
        (Or.inr (le_of_eq hteq.symm))
      intro j hj hjm
      have hxx : x (k + 2) ≤ x j := x_le_of_le n x hsort (k + 2) j (by omega) (by omega)
      have hlt : x (k + 1) < x (k + 2) := hsort (k + 1) (by omega)
      rw [hteq]
      linarith
    unfold pchipEvalAt
    rw [hseg, hteq, hermiteEval_left]
    exact ⟨hmono k hk, le_refl _⟩
  · have hseg : segIdx n x t = k := by
      unfold segIdx
      apply segIdxAux_eq x t k (n - 2) (by omega) (Or.inr ht0)
      intro j hj hjm
      by_cases hlt : t < x (k + 1)
      · have hxx : x (k + 1) ≤ x j := x_le_of_le n x hsort (k + 1) j (by omega) (by omega)
        linarith
      · have hteq : t = x (k + 1) := le_antisymm ht1 (not_lt.mp hlt)
        have hn2 : ¬ k + 2 < n := fun hc => hcase ⟨hteq, hc⟩
        omega
    unfold pchipEvalAt
    rw [hseg]
    have hbk := pchipDeriv_bound n x y hn hsort hmono k (by omega)
    have hbk1 := pchipDeriv_bound n x y hn hsort hmono (k + 1) (by omega)
    have hgp : 0 < x (k + 1) - x k := sub_pos.mpr (hsort k hk)
    have hsl : (x (k + 1) - x k) * (3 * slope x y k) = 3 * (y (k + 1) - y k) := by
      unfold slope
      field_simp
    apply hermiteEval_bound _ _ _ _ _ _ _ (hsort k hk) ht0 ht1 (hmono k hk)
    · exact mul_nonneg hgp.le hbk.1
    · calc (x (k + 1) - x k) * pchipDeriv n x y k
          ≤ (x (k + 1) - x k) * (3 * slope x y k) :=
            mul_le_mul_of_nonneg_left (hbk.2.1 hk) hgp.le
        _ = 3 * (y (k + 1) - y k) := hsl
    · exact mul_nonneg hgp.le hbk1.1
    · have h1k : pchipDeriv n x y (k + 1) ≤ 3 * slope x y k := by
        have := hbk1.2.2 (by omega)
        simpa using this
      calc (x (k + 1) - x k) * pchipDeriv n x y (k + 1)
          ≤ (x (k + 1) - x k) * (3 * slope x y k) :=
            mul_le_mul_of_nonneg_left h1k hgp.le
        _ = 3 * (y (k + 1) - y k) := hsl

lemma slope_neg (x y : Nat → ℚ) (k : Nat) :
    slope x (fun i => -(y i)) k = - slope x y k := by
  simp only [slope]
  rw [show -(y (k + 1)) - -(y k) = -(y (k + 1) - y k) by ring, neg_div]

lemma edgeDeriv_neg (h0 h1 d0 d1 : ℚ) :
    edgeDeriv h0 h1 (-d0) (-d1) = - edgeDeriv h0 h1 d0 d1 := by
  unfold edgeDeriv
  rw [show (2 * h0 + h1) * -d0 - h0 * -d1 = -((2 * h0 + h1) * d0 - h0 * d1) by ring,
    neg_div, sgn_neg_arg, sgn_neg_arg, sgn_neg_arg, abs_neg, abs_neg]
  simp only [ne_eq, neg_inj]
  split_ifs <;> ring

lemma interiorDeriv_neg (hp hc dp dc : ℚ) :
    interiorDeriv hp hc (-dp) (-dc) = - interiorDeriv hp hc dp dc := by
  unfold interiorDeriv
  rw [sgn_neg_arg, sgn_neg_arg]
  simp only [ne_eq, neg_inj, neg_eq_zero]
  split_ifs with h
  · ring
  · rw [div_neg, div_neg,
      show -((2 * hc + hp) / dp) + -((hc + 2 * hp) / dc) =
        -((2 * hc + hp) / dp + (hc + 2 * hp) / dc) by ring, div_neg]

lemma pchipDeriv_neg (n : Nat) (x y : Nat → ℚ) (k : Nat) :
    pchipDeriv n x (fun i => -(y i)) k = - pchipDeriv n x y k := by
  unfold pchipDeriv
  simp only [slope_neg, edgeDeriv_neg, interiorDeriv_neg]
  split_ifs <;> rfl

lemma hermiteEval_neg (x0 x1 y0 y1 m0 m1 t : ℚ) :
    hermiteEval x0 x1 (-y0) (-y1) (-m0) (-m1) t =
      - hermiteEval x0 x1 y0 y1 m0 m1 t := by
  unfold hermiteEval
  ring

lemma pchipEvalAt_neg (n : Nat) (x y : Nat → ℚ) (t : ℚ) :
    pchipEvalAt n x (fun i => -(y i)) t = - pchipEvalAt n x y t := by
  unfold pchipEvalAt
  simp only [pchipDeriv_neg]
  exact hermiteEval_neg (x (segIdx n x t)) (x (segIdx n x t + 1))
    (y (segIdx n x t)) (y (segIdx n x t + 1)) (pchipDeriv n x y (segIdx n x t))
    (pchipDeriv n x y (segIdx n x t + 1)) t

lemma pchipEvalAt_bound_anti (n : Nat) (x y : Nat → ℚ) (hn : 2 ≤ n)
    (hsort : ∀ i, i + 1 < n → x i < x (i + 1))
    (hanti : ∀ i, i + 1 < n → y (i + 1) ≤ y i)
    (k : Nat) (hk : k + 1 < n) (t : ℚ) (ht0 : x k ≤ t) (ht1 : t ≤ x (k + 1)) :
    y (k + 1) ≤ pchipEvalAt n x y t ∧ pchipEvalAt n x y t ≤ y k := by
  have hb := pchipEvalAt_bound_mono n x (fun i => -(y i)) hn hsort
    (fun i hi => neg_le_neg (hanti i hi)) k hk t ht0 ht1
  rw [pchipEvalAt_neg] at hb
  have h1 : -(y k) ≤ - pchipEvalAt n x y t := hb.1
  have h2 : - pchipEvalAt n x y t ≤ -(y (k + 1)) := hb.2
  exact ⟨by linarith, by linarith⟩

lemma timesSorted_of_B (table : BasisVectorTable) (hs : timesSortedB table = true) :
    ∀ i, i + 1 < table.length → tableTimes table i < tableTimes table (i + 1) := by
  intro i hi
  have hmem : i ∈ List.range (table.length - 1) := List.mem_range.mpr (by omega)
  exact of_decide_eq_true (List.all_eq_true.mp hs i hmem)

lemma getD_range (dim d : Nat) (h : d < dim) : (List.range dim).getD d 0 = d := by
  rw [List.getD_eq_getElem?_getD, List.getElem?_range h]
  rfl

/-! ### Claim theorems -/

/-- C1: for a non-empty target grid and a table with unique cadence
numbers, `align` succeeds; at each grid position whose cadence number has a
matching table row, the output row carries exactly that row's `values` and
`gap_flag`; at each position with no match it carries NaN sentinels of the
basis-vector dimensionality and `gap_flag = true`; and every output row
carries a target-grid cadence number, so table rows absent from the grid
never appear (silently, without error). -/
theorem C1_align_row_content (table : BasisVectorTable) (grid : TargetCadenceGrid)
    (hne : grid ≠ []) (hnd : (table.map Row.cadence_number).Nodup)
    (i : Nat) (hi : i < grid.length) :
    ∃ out, align table grid = Except.ok out ∧
      (∀ r ∈ table, r.cadence_number = (grid.getD i default).cadence_number →
        (out.getD i default).values = r.values ∧
        (out.getD i default).gap_flag = r.gap_flag) ∧
      ((∀ r ∈ table, r.cadence_number ≠ (grid.getD i default).cadence_number) →
        (out.getD i default).values = nanValues (basisDim table) ∧
        (out.getD i default).gap_flag = true) ∧
      (∀ j, j < grid.length →
        (out.getD j default).cadence_number = (grid.getD j default).cadence_number) := by
  refine ⟨grid.map (alignRow table), align_ok table grid hne, ?_, ?_, ?_⟩
  · intro r hr hc
    rw [getD_map_of_lt grid (alignRow table) i default default hi]
    rcases hfind : table.find?
        (fun r2 => r2.cadence_number == (grid.getD i default).cadence_number) with _ | r0
    · exact absurd (by simpa using hc) (List.find?_eq_none.mp hfind r hr)
    · obtain ⟨hr0, hr0c⟩ := find?_cadence_eq_some table _ r0 hfind
      have : r = r0 :=
        List.inj_on_of_nodup_map hnd hr hr0 (hc.trans hr0c.symm)
      subst this
      unfold alignRow
      rw [hfind]
      exact ⟨rfl, rfl⟩
  · intro hall
    rw [getD_map_of_lt grid (alignRow table) i default default hi]
    rcases hfind : table.find?
        (fun r2 => r2.cadence_number == (grid.getD i default).cadence_number) with _ | r0
    · unfold alignRow
      rw [hfind]
      exact ⟨rfl, rfl⟩
    · obtain ⟨hr0, hr0c⟩ := find?_cadence_eq_some table _ r0 hfind
      exact absurd hr0c (hall r0 hr0)
  · intro j hj
    rw [getD_map_of_lt grid (alignRow table) j default default hj]
    exact alignRow_cadence table _

/-- Closed witness for C1, on the spec's concrete scenario: grid position 1
(cadence 25) has no matching row. -/
theorem C1_align_row_content_witness :
    wGrid ≠ [] ∧ (wTable.map Row.cadence_number).Nodup ∧ 1 < wGrid.length ∧
    (∃ out, align wTable wGrid = Except.ok out ∧
      (∀ r ∈ wTable, r.cadence_number = (wGrid.getD 1 default).cadence_number →
        (out.getD 1 default).values = r.values ∧
        (out.getD 1 default).gap_flag = r.gap_flag) ∧
      ((∀ r ∈ wTable, r.cadence_number ≠ (wGrid.getD 1 default).cadence_number) →
        (out.getD 1 default).values = nanValues (basisDim wTable) ∧
        (out.getD 1 default).gap_flag = true) ∧
      (∀ j, j < wGrid.length →
        (out.getD j default).cadence_number = (wGrid.getD j default).cadence_number)) :=
  ⟨by decide, by decide, by decide,
    C1_align_row_content wTable wGrid (by decide) (by decide) 1 (by decide)⟩

/-- C2: with a valid source table (at least two rows, strictly increasing
times) and a non-empty grid, `interpolate` with `extrapolate = false`
succeeds, and each output row whose target time lies outside the closed
interval of table times has all values equal to zero (not NaN) and
`gap_flag = true`. -/
theorem C2_out_of_range_zero_gap (table : BasisVectorTable)
    (grid : TargetCadenceGrid) (h2 : 2 ≤ table.length)
    (hs : timesSortedB table = true) (hne : grid ≠ [])
    (i : Nat) (hi : i < grid.length)
    (hrange : (grid.getD i default).time < tableTimes table 0 ∨
      tableTimes table (table.length - 1) < (grid.getD i default).time) :
    ∃ out, interpolate table grid false = Except.ok out ∧
      (out.getD i default).values = List.replicate (basisDim table) (Val.num 0) ∧
      (out.getD i default).gap_flag = true := by
  refine ⟨_, interpolate_ok table grid false h2 hs hne, ?_, ?_⟩ <;>
  · rw [getD_map_of_lt grid (interpRow table false) i default default hi]
    unfold interpRow
    rw [if_pos hrange]
    rfl

/-- Closed witness for C2: a target time past the right end of the table. -/
theorem C2_out_of_range_zero_gap_witness :
    2 ≤ wTable.length ∧ timesSortedB wTable = true ∧
    ((([⟨40, 3⟩] : TargetCadenceGrid).getD 0 default).time < tableTimes wTable 0 ∨
      tableTimes wTable (wTable.length - 1) <
        (([⟨40, 3⟩] : TargetCadenceGrid).getD 0 default).time) ∧
    (∃ out, interpolate wTable [⟨40, 3⟩] false = Except.ok out ∧
      (out.getD 0 default).values = List.replicate (basisDim wTable) (Val.num 0) ∧
      (out.getD 0 default).gap_flag = true) :=
  ⟨by decide, by decide, by decide,
    C2_out_of_range_zero_gap wTable [⟨40, 3⟩] (by decide) (by decide)
      (by decide) 0 (by decide) (by decide)⟩

/-- C3: `interpolate` reports `InsufficientDataError` for every source
table with fewer than two points, for any target grid and either
extrapolation flag. -/
theorem C3_interpolate_insufficient_data (table : BasisVectorTable)
    (grid : TargetCadenceGrid) (ex : Bool) (h : table.length < 2) :
    interpolate table grid ex = Except.error CbvError.insufficientData := by
  simp [interpolate, h]

/-- Closed witness for C3: a one-row table. -/
theorem C3_interpolate_insufficient_data_witness :
    wTable1.length < 2 ∧
    interpolate wTable1 wGrid true = Except.error CbvError.insufficientData :=
  ⟨by decide, C3_interpolate_insufficient_data wTable1 wGrid true (by decide)⟩

/-- C4: whenever `align` or `interpolate` returns a table, its length
equals the target grid's length and its rows are in target-grid order (the
cadence-number column equals the grid's, elementwise). -/
theorem C4_output_length_and_order (table : BasisVectorTable)
    (grid : TargetCadenceGrid) :
    (∀ out, align table grid = Except.ok out →
      out.length = grid.length ∧
        out.map Row.cadence_number = grid.map GridEntry.cadence_number) ∧
    (∀ ex out, interpolate table grid ex = Except.ok out →
      out.length = grid.length ∧
        out.map Row.cadence_number = grid.map GridEntry.cadence_number) := by
  constructor
  · intro out hout
    rw [align_ok_inv table grid out hout]
    refine ⟨by simp, ?_⟩
    rw [List.map_map]
    exact List.map_congr_left fun e _ => alignRow_cadence table e
  · intro ex out hout
    rw [interpolate_ok_inv table grid ex out hout]
    refine ⟨by simp, ?_⟩
    rw [List.map_map]
    exact List.map_congr_left fun e _ => interpRow_cadence table ex e

/-- Closed witness for C4, on the spec's concrete scenario. -/
theorem C4_output_length_and_order_witness :
    align wTable wGrid = Except.ok (wGrid.map (alignRow wTable)) ∧
    (wGrid.map (alignRow wTable)).length = wGrid.length ∧
    (wGrid.map (alignRow wTable)).map Row.cadence_number =
        wGrid.map GridEntry.cadence_number :=
  ⟨align_ok wTable wGrid (by decide),
    (C4_output_length_and_order wTable wGrid).1 (wGrid.map (alignRow wTable))
      (align_ok wTable wGrid (by decide))⟩

/-- C5: shape preservation.  For a valid source table whose values in
basis-vector dimension `d` are monotone and single-signed, every value
`interpolate` produces at a target time bracketed by two consecutive table
times lies within the closed interval between the values at those two
bracketing times (no overshoot). -/
theorem C5_shape_preserving (table : BasisVectorTable) (grid : TargetCadenceGrid)
    (ex : Bool) (h2 : 2 ≤ table.length) (hs : timesSortedB table = true)
    (hne : grid ≠ []) (i : Nat) (hi : i < grid.length) (d : Nat)
    (hd : d < basisDim table)
    (hmono : (∀ j, j + 1 < table.length →
        tableVals table d j ≤ tableVals table d (j + 1)) ∨
      (∀ j, j + 1 < table.length →
        tableVals table d (j + 1) ≤ tableVals table d j))
    (hsign : (∀ j, j < table.length → 0 ≤ tableVals table d j) ∨
      (∀ j, j < table.length → tableVals table d j ≤ 0))
    (k : Nat) (hk : k + 1 < table.length)
    (ht0 : tableTimes table k ≤ (grid.getD i default).time)
    (ht1 : (grid.getD i default).time ≤ tableTimes table (k + 1)) :
    ∃ out, interpolate table grid ex = Except.ok out ∧
      ∃ w, (out.getD i default).values.getD d Val.nan = Val.num w ∧
        min (tableVals table d k) (tableVals table d (k + 1)) ≤ w ∧
        w ≤ max (tableVals table d k) (tableVals table d (k + 1)) := by
  have hsortP := timesSorted_of_B table hs
  refine ⟨_, interpolate_ok table grid ex h2 hs hne, ?_⟩
  rw [getD_map_of_lt grid (interpRow table ex) i default default hi]
  have hx0 : tableTimes table 0 ≤ (grid.getD i default).time :=
    le_trans
      (x_le_of_le table.length (tableTimes table) hsortP 0 k (Nat.zero_le k)
        (by omega)) ht0
  have hxn : (grid.getD i default).time ≤ tableTimes table (table.length - 1) :=
    le_trans ht1
      (x_le_of_le table.length (tableTimes table) hsortP (k + 1)
        (table.length - 1) (by omega) (by omega))
  have hnotrange : ¬ ((grid.getD i default).time < tableTimes table 0 ∨
      tableTimes table (table.length - 1) < (grid.getD i default).time) := by
    push_neg
    exact ⟨hx0, hxn⟩
  unfold interpRow
  rw [if_neg hnotrange]
  dsimp only
  rw [getD_map_of_lt (List.range (basisDim table)) _ d Val.nan 0
    (by simpa using hd), getD_range (basisDim table) d hd]
  refine ⟨pchipEvalAt table.length (tableTimes table) (tableVals table d)
    (grid.getD i default).time, rfl, ?_, ?_⟩
  · rcases hmono with hm | hm
    · have hb := pchipEvalAt_bound_mono table.length (tableTimes table)
        (tableVals table d) h2 hsortP hm k hk _ ht0 ht1
      exact le_trans (min_le_left _ _) hb.1
    · have hb := pchipEvalAt_bound_anti table.length (tableTimes table)
        (tableVals table d) h2 hsortP hm k hk _ ht0 ht1
      exact le_trans (min_le_right _ _) hb.1
  · rcases hmono with hm | hm
    · have hb := pchipEvalAt_bound_mono table.length (tableTimes table)
        (tableVals table d) h2 hsortP hm k hk _ ht0 ht1
      exact le_trans hb.2 (le_max_right _ _)
    · have hb := pchipEvalAt_bound_anti table.length (tableTimes table)
        (tableVals table d) h2 hsortP hm k hk _ ht0 ht1
      exact le_trans hb.2 (le_max_left _ _)

/-- Closed witness for C5: the spec's table interpolated at time `1`,
bracketed by the first two rows (values `1` and `2`). -/
theorem C5_shape_preserving_witness :
    2 ≤ wTable.length ∧ timesSortedB wTable = true ∧ 0 < basisDim wTable ∧
    (∃ out, interpolate wTable [⟨15, 1⟩] false = Except.ok out ∧
      ∃ w, (out.getD 0 default).values.getD 0 Val.nan = Val.num w ∧
        min (tableVals wTable 0 0) (tableVals wTable 0 1) ≤ w ∧
        w ≤ max (tableVals wTable 0 0) (tableVals wTable 0 1)) :=
  ⟨by decide, by decide, by decide,
    C5_shape_preserving wTable [⟨15, 1⟩] false (by decide) (by decide)
      (by decide) 0 (by decide) 0 (by decide)
      (Or.inl fun j hj => by
        have h3 : j < 2 := by simp [wTable] at hj; omega
        interval_cases j <;> decide)
      (Or.inl fun j hj => by
        have h3 : j < 3 := by simpa [wTable] using hj
        interval_cases j <;> decide)
      0 (by decide) (by decide) (by decide)⟩

/-- C6 counterexample: `align` copies the table row's own `gap_flag`, so a
grid fully covered by the table can still yield a `gap_flag = true` output
row when the matching table row was itself gap-filled. -/
theorem C6_counterexample_gap_copied :
    (∀ e ∈ gapGrid, ∃ r ∈ gapTable, r.cadence_number = e.cadence_number) ∧
    align gapTable gapGrid = Except.ok [⟨1, 0, [Val.num 1], true⟩] ∧
    ∃ r ∈ ([⟨1, 0, [Val.num 1], true⟩] : BasisVectorTable), r.gap_flag = true := by
  refine ⟨by decide, rfl, ⟨1, 0, [Val.num 1], true⟩, List.mem_singleton_self _, rfl⟩

/-- C6 amended: if every cadence number of the (non-empty) grid is present
in the table and no table row is itself gap-flagged, then `align` succeeds
and no output row has `gap_flag = true`. -/
theorem C6_no_gap_when_covered (table : BasisVectorTable)
    (grid : TargetCadenceGrid) (hne : grid ≠ [])
    (hcov : ∀ e ∈ grid, ∃ r ∈ table, r.cadence_number = e.cadence_number)
    (hclean : ∀ r ∈ table, r.gap_flag = false) :
    ∃ out, align table grid = Except.ok out ∧ ∀ r2 ∈ out, r2.gap_flag = false := by
  refine ⟨_, align_ok table grid hne, ?_⟩
  intro r2 hr2
  obtain ⟨e, he, her⟩ := List.mem_map.mp hr2
  obtain ⟨r, hr, hc⟩ := hcov e he
  obtain ⟨r0, hfind⟩ := find?_cadence_of_mem table e.cadence_number r hr hc
  obtain ⟨hr0, -⟩ := find?_cadence_eq_some table e.cadence_number r0 hfind
  rw [← her]
  unfold alignRow
  rw [hfind]
  exact hclean r0 hr0

/-- Closed witness for the amended C6: grid cadences 10 and 30 are both in
the table and the table has no gap rows. -/
theorem C6_no_gap_when_covered_witness :
    ∃ out, align wTable [⟨10, 0⟩, ⟨30, 2⟩] = Except.ok out ∧
      ∀ r2 ∈ out, r2.gap_flag = false :=
  C6_no_gap_when_covered wTable [⟨10, 0⟩, ⟨30, 2⟩] (by decide) (by decide) (by decide)

/-- C7: `align` is idempotent: aligning an `align` output against the grid
formed from that output's own cadence numbers (and times) returns it
unchanged, row for row. -/
theorem C7_align_idempotent (table : BasisVectorTable) (grid : TargetCadenceGrid)
    (hne : grid ≠ []) (out : BasisVectorTable)
    (hout : align table grid = Except.ok out) :
    align out (out.map fun r => ⟨r.cadence_number, r.time⟩) = Except.ok out := by
  have hform := align_ok_inv table grid out hout
  subst hform
  have hne2 : grid.map (alignRow table) ≠ [] := by
    simpa [List.map_eq_nil_iff] using hne
  have hne3 : ((grid.map (alignRow table)).map
      fun r => (⟨r.cadence_number, r.time⟩ : GridEntry)) ≠ [] := by
    simpa [List.map_eq_nil_iff] using hne
  rw [align_ok _ _ hne3, List.map_map]
  congr 1
  apply map_eq_self_of
  intro r hr
  show alignRow (grid.map (alignRow table)) ⟨r.cadence_number, r.time⟩ = r
  obtain ⟨r1, hfind⟩ :=
    find?_cadence_of_mem (grid.map (alignRow table)) r.cadence_number r hr rfl
  obtain ⟨hr1mem, hr1c⟩ :=
    find?_cadence_eq_some (grid.map (alignRow table)) r.cadence_number r1 hfind
  obtain ⟨e, he, her⟩ := List.mem_map.mp hr
  obtain ⟨e1, he1, her1⟩ := List.mem_map.mp hr1mem
  have hc : e1.cadence_number = e.cadence_number := by
    have h1 : e1.cadence_number = r1.cadence_number := by
      rw [← her1, alignRow_cadence]
    have h2 : e.cadence_number = r.cadence_number := by
      rw [← her, alignRow_cadence]
    rw [h1, h2, hr1c]
  have hvg : r1.values = r.values ∧ r1.gap_flag = r.gap_flag := by
    rw [← her1, ← her]
    unfold alignRow
    rw [hc]
    cases table.find? (fun r2 => r2.cadence_number == e.cadence_number) <;>
      exact ⟨rfl, rfl⟩
  rw [alignRow_of_find?_some _ _ r1 hfind, hvg.1, hvg.2]

/-- Closed witness for C7, on the spec's concrete scenario (whose aligned
output contains a NaN gap row). -/
theorem C7_align_idempotent_witness :
    align (wGrid.map (alignRow wTable))
        ((wGrid.map (alignRow wTable)).map fun r => ⟨r.cadence_number, r.time⟩) =
      Except.ok (wGrid.map (alignRow wTable)) :=
  C7_align_idempotent wTable wGrid (by decide) (wGrid.map (alignRow wTable))
    (align_ok wTable wGrid (by decide))

/-- C8 counterexample: the interpolant is fit from the table before the
grid is examined, so `interpolate` on a one-row table with an empty grid
reports `InsufficientDataError`, not `EmptyGridError`. -/
theorem C8_counterexample_error_precedence :
    interpolate wTable1 [] false = Except.error CbvError.insufficientData ∧
    (Except.error CbvError.insufficientData : Except CbvError BasisVectorTable) ≠
      Except.error CbvError.emptyGrid := by
  refine ⟨rfl, fun h => ?_⟩
  injection h with h2
  exact CbvError.noConfusion h2

/-- C8 amended: an empty grid yields `EmptyGridError` — always for `align`,
and for `interpolate` whenever the table passes the interpolant-construction
checks (at least two rows, strictly increasing times), which take
precedence; and each operation is all-or-nothing, returning either a typed
error or a full table. -/
theorem C8_empty_grid_error (table : BasisVectorTable) (ex : Bool) :
    align table [] = Except.error CbvError.emptyGrid ∧
    (2 ≤ table.length → timesSortedB table = true →
      interpolate table [] ex = Except.error CbvError.emptyGrid) ∧
    (∀ grid : TargetCadenceGrid, (∃ e, align table grid = Except.error e) ∨
      (∃ res, align table grid = Except.ok res)) ∧
    (∀ (grid : TargetCadenceGrid) (ex2 : Bool),
      (∃ e, interpolate table grid ex2 = Except.error e) ∨
      (∃ res, interpolate table grid ex2 = Except.ok res)) := by
  refine ⟨by simp [align], fun h2 hs => ?_, fun grid => ?_, fun grid ex2 => ?_⟩
  · simp [interpolate, hs, Nat.not_lt.mpr h2]
  · cases h : align table grid with
    | error e => exact Or.inl ⟨e, rfl⟩
    | ok res => exact Or.inr ⟨res, rfl⟩
  · cases h : interpolate table grid ex2 with
    | error e => exact Or.inl ⟨e, rfl⟩
    | ok res => exact Or.inr ⟨res, rfl⟩

/-- Closed witness for the amended C8: a two-row sorted table. -/
theorem C8_empty_grid_error_witness :
    interpolate wTable [] true = Except.error CbvError.emptyGrid :=
  (C8_empty_grid_error wTable true).2.1 (by decide) (by decide)

/-- C10: identifier columns of the outputs are copied elementwise from the
target grid: each `align` output row carries the grid's cadence number at
its position (even when table and grid share no cadence number), and each
`interpolate` output row carries the grid's time at its position. -/
theorem C10_identifier_columns_from_target (table : BasisVectorTable)
    (grid : TargetCadenceGrid) :
    (∀ out, align table grid = Except.ok out → ∀ i, i < grid.length →
      (out.getD i default).cadence_number = (grid.getD i default).cadence_number) ∧
    (∀ ex out, interpolate table grid ex = Except.ok out → ∀ i, i < grid.length →
      (out.getD i default).time = (grid.getD i default).time) := by
  constructor
  · intro out hout i hi
    rw [align_ok_inv table grid out hout,
      getD_map_of_lt grid (alignRow table) i default default hi]
    exact alignRow_cadence table _
  · intro ex out hout i hi
    rw [interpolate_ok_inv table grid ex out hout,
      getD_map_of_lt grid (interpRow table ex) i default default hi]
    exact interpRow_time table ex _

/-- Closed witness for C10: a grid sharing no cadence number with the
table. -/
theorem C10_identifier_columns_from_target_witness :
    align wTable [⟨99, 5⟩] = Except.ok ([⟨99, 5⟩].map (alignRow wTable)) ∧
    (([⟨99, 5⟩].map (alignRow wTable)).getD 0 default).cadence_number =
      (([⟨99, 5⟩] : TargetCadenceGrid).getD 0 default).cadence_number :=
  ⟨align_ok wTable [⟨99, 5⟩] (by decide),
    (C10_identifier_columns_from_target wTable [⟨99, 5⟩]).1
      ([⟨99, 5⟩].map (alignRow wTable)) (align_ok wTable [⟨99, 5⟩] (by decide))
      0 (by decide)⟩

end CBV
